import Mathlib

/-!
Shallow embedding of the DoodleVideo frame pipeline, translated from
`src/video_processor.py`, `src/app.py`, `src/scribble_generator.py` and
`src/main.py`.

A frame workspace directory is modelled as its sorted listing: a list of
`(index, image)` pairs with strictly increasing indices.  Every read of a
directory in the source goes through `sorted(dir.glob("frame_*.jpg"))`, so
the sorted listing is a canonical representation of the directory, and all
directory operations below preserve it.  A frame file name `frame_%05d.jpg`
is modelled by its numeric index (five-digit zero padding makes the
lexicographic order of the names agree with the numeric order of the
indices for the frame counts in scope).

Raster images are modelled as a geometry plus an opaque pixel payload.
`cv2.resize` is an external capability; only its geometry contract (the
output has the requested size) is modelled, the interpolated payload is
carried through unchanged.  Progress bars, `print` statements and the
per-call rate-limiting sleeps are omitted: they do not affect the frame
sets or the returned values.
-/

deriving instance DecidableEq for Except

/-- A raster frame: geometry plus pixel payload. -/
structure Image where
  width : Nat
  height : Nat
  pixels : List Nat
deriving DecidableEq

/-- A frame workspace directory, as its sorted listing. -/
abbrev Dir := List (Nat × Image)

/-- Strict ordering of two directory entries by frame index. -/
def keyLt (a b : Nat × Image) : Prop := a.1 < b.1

instance : DecidableRel keyLt :=
  fun a b => inferInstanceAs (Decidable (a.1 < b.1))

/-- Insert an entry into a listing sorted by index, keeping it sorted. -/
def insertByKey (f : Nat × Image) : Dir → Dir
  | [] => [f]
  | g :: d => if f.1 ≤ g.1 then f :: g :: d else g :: insertByKey f d

/-- `Path.unlink`: delete the file with the given index from the directory. -/
def unlink (n : Nat) (d : Dir) : Dir :=
  d.filter (fun g => decide (g.1 ≠ n))

/-- Write an image at the given index (overwriting any existing file). -/
def storeFile (n : Nat) (img : Image) (d : Dir) : Dir :=
  insertByKey (n, img) (unlink n d)

/-- `old_path.rename(new_path)`: if a file with index `old` exists and
`old ≠ new`, remove it (and any file already at `new`) and re-file its
image under index `new`.  Models `frame.rename(new_name)` guarded by
`if frame != new_name` in `subsample_frames` (src/app.py). -/
def renameFile (old new : Nat) (d : Dir) : Dir :=
  if old = new then d
  else
    match d.find? (fun f => f.1 == old) with
    | none => d
    | some f => insertByKey (new, f.2) (d.filter (fun g => !(g.1 == old) && !(g.1 == new)))

/-- Python slice `l[::skip]` for `skip ≥ 1`: every `skip`-th element
starting from position 0. -/
def takeEvery {α : Type} (skip : Nat) : List α → List α
  | [] => []
  | x :: xs => x :: takeEvery skip (xs.drop (skip - 1))
termination_by l => l.length
decreasing_by
  simp only [List.length_drop, List.length_cons]
  omega

/-- Python `enumerate` starting at `n`. -/
def enumer {α : Type} (n : Nat) : List α → List (Nat × α)
  | [] => []
  | x :: xs => (n, x) :: enumer (n + 1) xs

/-- Python `int()` on a rational value: truncation toward zero. -/
def pyInt (q : ℚ) : Int := if q < 0 then -⌊-q⌋ else ⌊q⌋

/-- The state `cv2.VideoCapture` exposes for a source video: whether it
opened, the reported frame rate and frame count metadata, the reported
geometry, and the actually decodable frame stream (which may be shorter
than the reported count if the stream ends early). -/
structure Capture where
  opened : Bool
  fps : ℚ
  total_frames : Nat
  width : Nat
  height : Nat
  stream : List Image
deriving DecidableEq

/-- Result of `VideoProcessor.extract_frames`: the returned triple
`(frame_count, fps, frame_size)` plus the frame files written to the
(freshly cleared) extraction workspace. -/
structure ExtractResult where
  count : Nat
  fps : ℚ
  frame_size : Nat × Nat
  frames : Dir
deriving DecidableEq

/-- `VideoProcessor.extract_frames` (src/video_processor.py, lines 21-86).
Clears the destination workspace, raises `ValueError` if the capture did
not open, computes `frames_to_extract = min(int(max_duration * fps),
total_frames)` when a duration is given (else `total_frames`; that branch
prints `total_frames / fps`, which raises `ZeroDivisionError` when the
reported rate is zero), then decodes frames sequentially until the target
count is reached or the stream is exhausted, writing each at the next
contiguous index starting from 0. -/
def extract_frames (cap : Capture) (max_duration : Option ℚ) : Except String ExtractResult :=
  if cap.opened = false then Except.error "Could not open video file"
  else
    match max_duration with
    | some d =>
      let max_frames : Int := pyInt (d * cap.fps)
      let frames_to_extract : Int := min max_frames (cap.total_frames : Int)
      let written := enumer 0 (cap.stream.take frames_to_extract.toNat)
      Except.ok ⟨written.length, cap.fps, (cap.width, cap.height), written⟩
    | none =>
      if cap.fps = 0 then Except.error "ZeroDivisionError: division by zero"
      else
        let written := enumer 0 (cap.stream.take cap.total_frames)
        Except.ok ⟨written.length, cap.fps, (cap.width, cap.height), written⟩

/-- `frame_skip = int(original_fps / target_fps) if target_fps < original_fps
else 1` (src/app.py, line 81). -/
def computeFrameSkip (original_fps target_fps : ℚ) : Int :=
  if target_fps < original_fps then pyInt (original_fps / target_fps) else 1

/-- `subsample_frames` (src/app.py, lines 171-186): keep every `skip`-th
frame of the sorted listing, unlink the rest, then rename the survivors
(re-listed in sorted order) to contiguous indices `0, 1, 2, ...`. -/
def subsample_frames (d : Dir) (skip : Nat) : Dir :=
  let frames := d
  let frames_to_keep := takeEvery skip frames
  let frames_to_remove := frames.filter (fun f => decide (f ∉ frames_to_keep))
  let d1 := frames_to_remove.foldl (fun st f => unlink f.1 st) d
  (enumer 0 d1).foldl (fun st p => renameFile p.2.1 p.1 st) d1

/-- The resampling step of `process_video` (src/app.py, lines 80-90):
compute the skip factor and subsample only when it exceeds 1. -/
def resampleStage (d : Dir) (original_fps target_fps : ℚ) : Dir :=
  let frame_skip := computeFrameSkip original_fps target_fps
  if 1 < frame_skip then subsample_frames d frame_skip.toNat else d

/-- One part of a Gemini response; only `inline_data` is consumed. -/
structure ResponsePart where
  inline_data : Option Image
deriving DecidableEq

/-- A Gemini `generate_content` response: a list of parts. -/
structure AIResponse where
  parts : List ResponsePart
deriving DecidableEq

/-- The extraction loop of `_process_frame_ai`: the first part carrying
`inline_data`, if any (the loop breaks after the first save). -/
def firstInlineImage : List ResponsePart → Option Image
  | [] => none
  | p :: ps =>
    match p.inline_data with
    | some img => some img
    | none => firstInlineImage ps

/-- `ScribbleGenerator._process_frame_ai` (src/scribble_generator.py,
lines 86-124): call the AI capability; persist the first returned inline
image; if the call raises or the response carries no image, persist the
fallback capability applied to the original input instead.  Always yields
exactly one output image. -/
def process_frame_ai (aiT : Image → Except String AIResponse) (fb : Image → Image)
    (img : Image) : Image :=
  match aiT img with
  | Except.error _ => fb img
  | Except.ok resp =>
    match firstInlineImage resp.parts with
    | some g => g
    | none => fb img

/-- Generation mode (`--mode {ai,experimental}`). -/
inductive Mode
  | ai
  | experimental
deriving DecidableEq

/-- `ScribbleGenerator.__init__` / `_setup_ai` (src/scribble_generator.py,
lines 20-41): in AI mode, raise `ValueError` when the API key is absent. -/
def scribbleGeneratorInit (mode : Mode) (apiKey : Option String) : Except String Unit :=
  match mode with
  | Mode.ai =>
    match apiKey with
    | none => Except.error "GOOGLE_API_KEY not found. Please set it in your .env file."
    | some _ => Except.ok ()
  | Mode.experimental => Except.ok ()

/-- Per-frame transformation selected by the mode.  The procedural
(experimental) capability is a parameter `fb`: the doodle-drawing routines
are an external collaborator that always succeeds. -/
def processOne (mode : Mode) (aiT : Image → Except String AIResponse)
    (fb : Image → Image) (img : Image) : Image :=
  match mode with
  | Mode.ai => process_frame_ai aiT fb img
  | Mode.experimental => fb img

/-- `ScribbleGenerator.process_frames` (src/scribble_generator.py,
lines 43-84): raise `ValueError` on an empty input listing, else write one
transformed output per input frame under the same index. -/
def process_frames (mode : Mode) (aiT : Image → Except String AIResponse)
    (fb : Image → Image) (input_dir output_dir : Dir) : Except String Dir :=
  if input_dir.isEmpty then Except.error "No frames found"
  else
    Except.ok (input_dir.foldl
      (fun st f => storeFile f.1 (processOne mode aiT fb f.2) st) output_dir)

/-- `cv2.resize` to a target `(width, height)`: external capability, its
geometry contract only (payload carried through). -/
def cv2_resize (size : Nat × Nat) (img : Image) : Image :=
  ⟨size.1, size.2, img.pixels⟩

/-- The per-frame step of stitching: resize only when the geometry
differs from the canonical one. -/
def fitGeometry (size : Nat × Nat) (img : Image) : Image :=
  if (img.width, img.height) = size then img else cv2_resize size img

/-- Canonical output geometry: the explicitly supplied one, else the
geometry of the first frame in sorted index order. -/
def canonGeom (frame_files : Dir) (frame_size : Option (Nat × Nat)) : Nat × Nat :=
  match frame_size with
  | some s => s
  | none =>
    match frame_files with
    | [] => (0, 0)
    | f :: _ => (f.2.width, f.2.height)

/-- `VideoProcessor.stitch_frames` (src/video_processor.py, lines 88-145):
raise `ValueError` on an empty frame listing, determine the canonical
geometry, then write every frame in sorted index order, resizing any frame
whose geometry differs.  The result is the ordered frame content of the
output video. -/
def stitch_frames (frames_dir : Dir) (frame_size : Option (Nat × Nat)) :
    Except String (List Image) :=
  if frames_dir.isEmpty then Except.error "No frames found"
  else
    let size := canonGeom frames_dir frame_size
    Except.ok (frames_dir.map (fun f => fitGeometry size f.2))

/-- Outcome of the Streamlit coordinator `process_video` (src/app.py):
the output video's frames (when successful), the success flag, and the
final contents of the two frame workspaces. -/
structure AppRun where
  output : Option (List Image)
  success : Bool
  originalDir : Dir
  scribbledDir : Dir
deriving DecidableEq

/-- `process_video` (src/app.py, lines 50-168): extract (returning
`(None, False)` if that raises), compute the skip factor and subsample when
it exceeds 1, transform every remaining frame into the scribbled workspace,
then stitch every file of the scribbled workspace in sorted order — with no
empty-set check — resizing to the extractor's reported geometry, and on
success clear both workspaces (`clear_temp_folders`). -/
def app_process_video (cap : Capture) (duration : ℚ) (target_fps original_fps : ℚ)
    (transform : Image → Image) (scrib0 : Dir) : AppRun :=
  match extract_frames cap (some duration) with
  | Except.error _ => ⟨none, false, [], scrib0⟩
  | Except.ok r =>
    let frame_skip := computeFrameSkip original_fps target_fps
    let orig2 := if 1 < frame_skip then subsample_frames r.frames frame_skip.toNat else r.frames
    let scrib1 := orig2.foldl (fun st f => storeFile f.1 (transform f.2) st) scrib0
    let outFrames := scrib1.map (fun f => fitGeometry r.frame_size f.2)
    ⟨some outFrames, true, [], []⟩

/-- Outcome of the CLI coordinator `main` (src/main.py): the pipeline
result (output frames or the message of the raised exception) and the
final contents of the two frame workspaces. -/
structure MainRun where
  result : Except String (List Image)
  originalDir : Dir
  scribbledDir : Dir
deriving DecidableEq

/-- The pipeline body of `main` (src/main.py, lines 110-147): extract,
construct the generator (which checks the credential in AI mode), process
the frames, stitch — with no cleanup of the workspaces in either the
success or the failure path. -/
def main_pipeline (cap : Capture) (max_duration : Option ℚ) (mode : Mode)
    (apiKey : Option String) (aiT : Image → Except String AIResponse)
    (fb : Image → Image) (scrib0 : Dir) : MainRun :=
  match extract_frames cap max_duration with
  | Except.error e => ⟨Except.error e, [], scrib0⟩
  | Except.ok r =>
    match scribbleGeneratorInit mode apiKey with
    | Except.error e => ⟨Except.error e, r.frames, scrib0⟩
    | Except.ok _ =>
      match process_frames mode aiT fb r.frames scrib0 with
      | Except.error e => ⟨Except.error e, r.frames, scrib0⟩
      | Except.ok scrib1 =>
        match stitch_frames scrib1 none with
        | Except.error e => ⟨Except.error e, r.frames, scrib1⟩
        | Except.ok out => ⟨Except.ok out, r.frames, scrib1⟩

/-! Concrete sample data used by witnesses and counterexamples. -/

/-- Sample 4x3 frame. -/
def imgA : Image := ⟨4, 3, [1, 2, 3]⟩

/-- Sample 4x3 frame. -/
def imgB : Image := ⟨4, 3, [4, 5, 6]⟩

/-- Sample frame with a different geometry. -/
def imgC : Image := ⟨8, 6, [7, 8, 9]⟩

/-- Sample 4x3 frame. -/
def imgD : Image := ⟨4, 3, [10, 11]⟩

/-- A readable 30 fps capture with five decodable frames. -/
def capFive : Capture := ⟨true, 30, 5, 4, 3, [imgA, imgB, imgC, imgD, imgA]⟩

/-- A readable 30 fps capture whose stream is empty. -/
def capEmpty : Capture := ⟨true, 30, 0, 4, 3, []⟩

/-- A readable capture whose reported frame rate is zero. -/
def capZeroFps : Capture := ⟨true, 0, 5, 4, 3, [imgA, imgB, imgC, imgD, imgA]⟩

/-- A capture that failed to open. -/
def capClosed : Capture := ⟨false, 30, 5, 4, 3, [imgA]⟩

/-- A readable 30 fps capture with one decodable frame. -/
def capOne : Capture := ⟨true, 30, 1, 4, 3, [imgA]⟩

/-- An AI capability that always raises. -/
def aiAlwaysFails : Image → Except String AIResponse := fun _ => Except.error "boom"

/-- An AI capability that always returns a response with no inline image. -/
def aiNoImage : Image → Except String AIResponse :=
  fun _ => Except.ok ⟨[⟨none⟩]⟩

/-- A concrete procedural fallback capability. -/
def fbScribble : Image → Image := fun img => ⟨img.width, img.height, 0 :: img.pixels⟩

/-! Basic lemmas about the embedding's building blocks. -/

theorem pyInt_of_nonneg (q : ℚ) (h : 0 ≤ q) : pyInt q = ⌊q⌋ := by
  simp [pyInt, not_lt.mpr h]

theorem int_toNat_min (a b : Int) : (min a b).toNat = min a.toNat b.toNat := by
  omega

theorem enumer_length {α : Type} (n : Nat) (l : List α) :
    (enumer n l).length = l.length := by
  induction l generalizing n with
  | nil => rfl
  | cons x xs ih => simp [enumer, ih]

theorem enumer_getElem? {α : Type} (n : Nat) (l : List α) (i : Nat) :
    (enumer n l)[i]? = l[i]?.map (fun a => (n + i, a)) := by
  induction l generalizing n i with
  | nil => simp [enumer]
  | cons x xs ih =>
    cases i with
    | zero => simp [enumer]
    | succ j => simpa [enumer, Nat.add_comm, Nat.add_assoc, Nat.add_left_comm] using ih (n + 1) j

theorem enumer_map_snd {α : Type} (n : Nat) (l : List α) :
    (enumer n l).map Prod.snd = l := by
  induction l generalizing n with
  | nil => rfl
  | cons x xs ih => simp [enumer, ih]

theorem enumer_map_fst {α : Type} (n : Nat) (l : List α) :
    (enumer n l).map Prod.fst = List.range' n l.length := by
  induction l generalizing n with
  | nil => rfl
  | cons x xs ih => simp [enumer, ih, List.range'_succ]

theorem enumer_append {α : Type} (n : Nat) (l1 l2 : List α) :
    enumer n (l1 ++ l2) = enumer n l1 ++ enumer (n + l1.length) l2 := by
  induction l1 generalizing n with
  | nil => simp [enumer]
  | cons x xs ih =>
    simp [enumer, ih, Nat.add_comm, Nat.add_assoc, Nat.add_left_comm]

theorem enumer_mem_fst (n : Nat) (l : List Image) :
    ∀ p ∈ enumer n l, n ≤ p.1 ∧ p.1 < n + l.length := by
  induction l generalizing n with
  | nil => simp [enumer]
  | cons x xs ih =>
    intro p hp
    rcases List.mem_cons.mp hp with h | h
    · subst h; simp
    · have := ih (n + 1) p h
      constructor <;> [omega; (simp only [List.length_cons]; omega)]

theorem enumer_pairwise (n : Nat) (l : List Image) :
    List.Pairwise keyLt (enumer n l) := by
  induction l generalizing n with
  | nil => exact List.Pairwise.nil
  | cons x xs ih =>
    refine List.pairwise_cons.mpr ⟨?_, ih (n + 1)⟩
    intro p hp
    have := (enumer_mem_fst (n + 1) xs p hp).1
    simpa [keyLt] using by omega

theorem takeEvery_nil {α : Type} (s : Nat) : takeEvery s ([] : List α) = [] := by
  rw [takeEvery]

theorem takeEvery_cons {α : Type} (s : Nat) (x : α) (xs : List α) :
    takeEvery s (x :: xs) = x :: takeEvery s (xs.drop (s - 1)) := by
  rw [takeEvery]

theorem takeEvery_sublist {α : Type} (s : Nat) :
    ∀ l : List α, List.Sublist (takeEvery s l) l := by
  intro l
  induction l using takeEvery.induct s with
  | case1 => simp [takeEvery_nil]
  | case2 x xs ih =>
    rw [takeEvery_cons]
    exact List.Sublist.cons₂ x (ih.trans (List.drop_sublist (s - 1) xs))

theorem length_takeEvery {α : Type} (s : Nat) (hs : 1 ≤ s) :
    ∀ l : List α, (takeEvery s l).length = (l.length + s - 1) / s := by
  intro l
  induction l using takeEvery.induct s with
  | case1 =>
    rw [takeEvery_nil]
    simp only [List.length_nil, Nat.zero_add]
    rw [Nat.div_eq_of_lt (by omega)]
  | case2 x xs ih =>
    rw [takeEvery_cons]
    have hdl : (List.drop (s - 1) xs).length = xs.length - (s - 1) := by simp
    simp only [List.length_cons]
    rw [ih, hdl]
    rcases le_or_lt (s - 1) xs.length with h | h
    · have h1 : xs.length - (s - 1) + s - 1 = xs.length := by omega
      have h2 : xs.length + 1 + s - 1 = xs.length + s := by omega
      rw [h1, h2, Nat.add_div_right _ (by omega)]
    · have h1 : xs.length - (s - 1) + s - 1 = s - 1 := by omega
      have h2 : xs.length + 1 + s - 1 = xs.length + s := by omega
      rw [h1, h2, Nat.add_div_right _ (by omega), Nat.div_eq_of_lt (by omega),
        Nat.div_eq_of_lt (by omega)]

theorem takeEvery_getElem? {α : Type} (s : Nat) (hs : 1 ≤ s) :
    ∀ (l : List α) (i : Nat), (takeEvery s l)[i]? = l[i * s]? := by
  intro l
  induction l using takeEvery.induct s with
  | case1 => intro i; simp [takeEvery_nil]
  | case2 x xs ih =>
    intro i
    rw [takeEvery_cons]
    cases i with
    | zero => simp
    | succ j =>
      have h1 : (j + 1) * s = ((s - 1) + j * s) + 1 := by
        have : (j + 1) * s = j * s + s := by ring
        omega
      simp only [List.getElem?_cons_succ, ih j, List.getElem?_drop, h1]

theorem takeEvery_map {α β : Type} (s : Nat) (f : α → β) :
    ∀ l : List α, takeEvery s (l.map f) = (takeEvery s l).map f := by
  intro l
  induction l using takeEvery.induct s with
  | case1 => simp [takeEvery_nil]
  | case2 x xs ih =>
    rw [List.map_cons, takeEvery_cons, takeEvery_cons, List.map_cons, ← List.map_drop, ih]

/-! Lemmas about the directory operations. -/

theorem insertByKey_append_left (f : Nat × Image) :
    ∀ (l1 l2 : Dir), (∀ g ∈ l1, g.1 < f.1) →
    insertByKey f (l1 ++ l2) = l1 ++ insertByKey f l2 := by
  intro l1 l2 h
  induction l1 with
  | nil => rfl
  | cons g l1 ih =>
    have hg : g.1 < f.1 := h g (by simp)
    simp only [List.cons_append, insertByKey, if_neg (by omega : ¬ f.1 ≤ g.1)]
    exact congrArg (List.cons g) (ih (fun g' hg' => h g' (by simp [hg'])))

theorem insertByKey_eq_cons (f : Nat × Image) :
    ∀ l : Dir, (∀ g ∈ l, f.1 ≤ g.1) → insertByKey f l = f :: l := by
  intro l h
  cases l with
  | nil => rfl
  | cons g l => simp only [insertByKey, if_pos (h g (by simp))]

theorem insertByKey_append_end (f : Nat × Image) :
    ∀ l : Dir, (∀ g ∈ l, g.1 < f.1) → insertByKey f l = l ++ [f] := by
  intro l h
  have := insertByKey_append_left f l [] h
  simpa using this

theorem unlink_of_forall_ne (n : Nat) (l : Dir) (h : ∀ g ∈ l, g.1 ≠ n) :
    unlink n l = l := by
  unfold unlink
  exact List.filter_eq_self.mpr (fun a ha => by simpa using h a ha)

theorem storeFile_append_end (n : Nat) (img : Image) (l : Dir)
    (h : ∀ g ∈ l, g.1 < n) : storeFile n img l = l ++ [(n, img)] := by
  unfold storeFile
  rw [unlink_of_forall_ne n l (fun g hg => by have := h g hg; omega)]
  exact insertByKey_append_end (n, img) l h

theorem foldl_storeFile (t : Nat × Image → Image) :
    ∀ (d acc : Dir), List.Pairwise keyLt d → (∀ a ∈ acc, ∀ b ∈ d, a.1 < b.1) →
    d.foldl (fun st f => storeFile f.1 (t f) st) acc = acc ++ d.map (fun f => (f.1, t f)) := by
  intro d
  induction d with
  | nil => intro acc _ _; simp
  | cons f d ih =>
    intro acc hp hacc
    rcases List.pairwise_cons.mp hp with ⟨hf, hp'⟩
    simp only [List.foldl_cons]
    rw [storeFile_append_end f.1 (t f) acc (fun a ha => hacc a ha f (by simp))]
    rw [ih (acc ++ [(f.1, t f)]) hp' ?_]
    · simp
    · intro a ha b hb
      rcases List.mem_append.mp ha with h | h
      · exact hacc a h b (by simp [hb])
      · simp only [List.mem_singleton] at h
        subst h
        exact hf b hb

theorem unlink_foldl :
    ∀ (rm d : Dir), rm.foldl (fun st f => unlink f.1 st) d
      = d.filter (fun g => decide (g.1 ∉ rm.map Prod.fst)) := by
  intro rm
  induction rm with
  | nil => intro d; simp
  | cons f rm ih =>
    intro d
    simp only [List.foldl_cons, ih]
    unfold unlink
    rw [List.filter_filter]
    refine List.filter_congr ?_
    intro a _
    by_cases h1 : a.1 = f.1 <;> by_cases h2 : a.1 ∈ rm.map Prod.fst <;>
      simp [h1, h2]

theorem key_inj :
    ∀ (l : Dir), (l.map Prod.fst).Nodup →
    ∀ {a b : Nat × Image}, a ∈ l → b ∈ l → a.1 = b.1 → a = b := by
  intro l
  induction l with
  | nil => intro _ a b ha; simp at ha
  | cons c l ih =>
    intro hnd a b ha hb hab
    simp only [List.map_cons, List.nodup_cons] at hnd
    rcases List.mem_cons.mp ha with h1 | h1 <;> rcases List.mem_cons.mp hb with h2 | h2
    · rw [h1, h2]
    · exfalso
      apply hnd.1
      have hm : b.1 ∈ l.map Prod.fst := List.mem_map_of_mem Prod.fst h2
      have he : c.1 = b.1 := by rw [← h1, hab]
      rwa [← he] at hm
    · exfalso
      apply hnd.1
      have hm : a.1 ∈ l.map Prod.fst := List.mem_map_of_mem Prod.fst h1
      have he : a.1 = c.1 := by rw [hab, h2]
      rwa [he] at hm
    · exact ih hnd.2 h1 h2 hab

theorem filter_mem_of_sublist :
    ∀ {l k : Dir}, List.Sublist k l → l.Nodup →
    l.filter (fun g => decide (g ∈ k)) = k := by
  intro l k h
  induction h with
  | slnil => intro _; rfl
  | @cons k l' a h ih =>
    intro hnd
    rcases List.nodup_cons.mp hnd with ⟨hna, hnd'⟩
    have hak : a ∉ k := fun hak => hna (h.subset hak)
    simp only [List.filter_cons, decide_eq_true_eq, if_neg hak]
    exact ih hnd'
  | @cons₂ k l' a h ih =>
    intro hnd
    rcases List.nodup_cons.mp hnd with ⟨hna, hnd'⟩
    simp only [List.filter_cons, decide_eq_true_eq, if_pos (List.mem_cons_self a k)]
    have : l'.filter (fun g => decide (g ∈ a :: k)) = l'.filter (fun g => decide (g ∈ k)) := by
      refine List.filter_congr ?_
      intro g hg
      have : g ≠ a := fun he => hna (he ▸ hg)
      simp [List.mem_cons, this]
    rw [this, ih hnd']

theorem pairwise_keys_nodup {l : Dir} (h : List.Pairwise keyLt l) :
    (l.map Prod.fst).Nodup := by
  rw [List.nodup_iff_sublist]
  intro a ha
  have := (List.pairwise_map.mpr (h.imp (fun {x y} hxy => Nat.ne_of_lt hxy))).sublist ha
  simp at this

theorem phase1_d1 (l : Dir) (s : Nat) (hp : List.Pairwise keyLt l) :
    (l.filter (fun f => decide (f ∉ takeEvery s l))).foldl (fun st f => unlink f.1 st) l
      = takeEvery s l := by
  set keep := takeEvery s l with hkeep
  set rm := l.filter (fun f => decide (f ∉ keep)) with hrm
  have hknd : (l.map Prod.fst).Nodup := pairwise_keys_nodup hp
  have hnd : l.Nodup := List.Nodup.of_map Prod.fst hknd
  rw [unlink_foldl]
  have hstep : l.filter (fun g => decide (g.1 ∉ rm.map Prod.fst))
      = l.filter (fun g => decide (g ∈ keep)) := by
    refine List.filter_congr ?_
    intro g hg
    have hiff : g.1 ∉ rm.map Prod.fst ↔ g ∈ keep := by
      constructor
      · intro hn
        by_contra hgk
        exact hn (List.mem_map_of_mem Prod.fst
          (hrm ▸ List.mem_filter.mpr ⟨hg, by simpa using hgk⟩))
      · intro hgk hmem
        rcases List.mem_map.mp hmem with ⟨g', hg', he⟩
        have hg'l : g' ∈ l := List.mem_of_mem_filter (hrm ▸ hg')
        have : g' = g := key_inj l hknd hg'l hg he
        subst this
        have := List.mem_filter.mp (hrm ▸ hg')
        simp only [decide_eq_true_eq] at this
        exact this.2 hgk
    by_cases hk : g ∈ keep
    · simp [hk, hiff.mpr hk]
    · have hmem : g.1 ∈ rm.map Prod.fst := by
        by_contra hn
        exact hk (hiff.mp hn)
      simp [hk, hmem]
  rw [hstep, filter_mem_of_sublist (hkeep ▸ takeEvery_sublist s l) hnd]

theorem find?_append_false {α : Type} (p : α → Bool) :
    ∀ (l1 l2 : List α), (∀ a ∈ l1, p a = false) →
    List.find? p (l1 ++ l2) = List.find? p l2 := by
  intro l1 l2 h
  induction l1 with
  | nil => rfl
  | cons a l1 ih =>
    rw [List.cons_append, List.find?_cons_of_neg _ (by simp [h a (by simp)])]
    exact ih (fun a' ha' => h a' (by simp [ha']))

theorem renameFile_step (done : List Image) (k : Nat) (im : Image) (rest : Dir)
    (hk : done.length ≤ k) (hrest : ∀ g ∈ rest, k < g.1) :
    renameFile k done.length (enumer 0 done ++ (k, im) :: rest)
      = enumer 0 done ++ (done.length, im) :: rest := by
  set n := done.length with hn
  have hdone : ∀ a ∈ enumer 0 done, a.1 < n := fun a ha => by
    have := (enumer_mem_fst 0 done a ha).2
    omega
  by_cases hkn : k = n
  · subst hkn
    simp [renameFile]
  · have hnk : n < k := by omega
    unfold renameFile
    rw [if_neg hkn]
    have hfind : List.find? (fun f => f.1 == k) (enumer 0 done ++ (k, im) :: rest)
        = some (k, im) := by
      rw [find?_append_false _ _ _ (fun a ha => by
        have := hdone a ha
        simp only [beq_eq_false_iff_ne]
        omega)]
      exact List.find?_cons_of_pos _ (by simp)
    rw [hfind]
    have hfilter : (enumer 0 done ++ (k, im) :: rest).filter
        (fun g => !(g.1 == k) && !(g.1 == n)) = enumer 0 done ++ rest := by
      rw [List.filter_append]
      have h1 : (enumer 0 done).filter (fun g => !(g.1 == k) && !(g.1 == n))
          = enumer 0 done :=
        List.filter_eq_self.mpr (fun a ha => by
          have := hdone a ha
          simp only [Bool.and_eq_true, Bool.not_eq_true', beq_eq_false_iff_ne]
          exact ⟨by omega, by omega⟩)
      have h3 : rest.filter (fun g => !(g.1 == k) && !(g.1 == n)) = rest :=
        List.filter_eq_self.mpr (fun a ha => by
          have := hrest a ha
          simp only [Bool.and_eq_true, Bool.not_eq_true', beq_eq_false_iff_ne]
          exact ⟨by omega, by omega⟩)
      have h2 : ((k, im) :: rest).filter (fun g => !(g.1 == k) && !(g.1 == n))
          = rest := by
        simp [List.filter_cons, h3]
      rw [h1, h2]
    show insertByKey (n, im) ((enumer 0 done ++ (k, im) :: rest).filter
      (fun g => !(g.1 == k) && !(g.1 == n))) = enumer 0 done ++ (n, im) :: rest
    rw [hfilter]
    rw [insertByKey_append_left (n, im) (enumer 0 done) rest hdone]
    rw [insertByKey_eq_cons (n, im) rest (fun g hg => by have := hrest g hg; omega)]

theorem rename_fold :
    ∀ (rest : Dir) (done : List Image),
    List.Pairwise keyLt rest →
    (∀ i k im, rest[i]? = some (k, im) → done.length + i ≤ k) →
    (enumer done.length rest).foldl (fun st p => renameFile p.2.1 p.1 st)
      (enumer 0 done ++ rest)
    = enumer 0 (done ++ rest.map Prod.snd) := by
  intro rest
  induction rest with
  | nil => intro done _ _; simp [enumer]
  | cons f rest ih =>
    obtain ⟨k, im⟩ := f
    intro done hp hpos
    set n := done.length with hn
    have hk : n ≤ k := by
      have := hpos 0 k im (by simp)
      omega
    rcases List.pairwise_cons.mp hp with ⟨hhead, hp'⟩
    have hrest : ∀ g ∈ rest, k < g.1 := fun g hg => hhead g hg
    simp only [enumer, List.foldl_cons]
    rw [renameFile_step done k im rest hk hrest]
    have hstate : enumer 0 done ++ (n, im) :: rest = enumer 0 (done ++ [im]) ++ rest := by
      rw [enumer_append]
      simp [enumer, hn]
    rw [hstate]
    have hlen : (done ++ [im]).length = n + 1 := by simp [hn]
    have hfold := ih (done ++ [im]) hp' ?_
    · rw [hlen] at hfold
      rw [hfold]
      simp [List.map_cons]
    · intro i k' im' hi
      rw [hlen]
      have := hpos (i + 1) k' im' (by simpa using hi)
      omega

theorem takeEvery_enum_pos (imgs : List Image) (s : Nat) (hs : 1 ≤ s) :
    ∀ (i k : Nat) (im : Image),
      (takeEvery s (enumer 0 imgs))[i]? = some (k, im) → i ≤ k := by
  intro i k im h
  rw [takeEvery_getElem? s hs, enumer_getElem?] at h
  cases himg : imgs[i * s]? with
  | none => rw [himg] at h; simp at h
  | some a =>
    rw [himg] at h
    simp only [Option.map_some'] at h
    have hk : k = i * s := by
      have := congrArg Prod.fst (Option.some.inj h)
      simp at this
      omega
    have hi : i * 1 ≤ i * s := Nat.mul_le_mul_left i hs
    omega

theorem subsample_enum (imgs : List Image) (s : Nat) (hs : 1 ≤ s) :
    subsample_frames (enumer 0 imgs) s = enumer 0 (takeEvery s imgs) := by
  have hp : List.Pairwise keyLt (enumer 0 imgs) := enumer_pairwise 0 imgs
  have hd1 := phase1_d1 (enumer 0 imgs) s hp
  unfold subsample_frames
  simp only []
  rw [hd1]
  set keep := takeEvery s (enumer 0 imgs) with hkeep
  have hpair : List.Pairwise keyLt keep := hp.sublist (takeEvery_sublist s (enumer 0 imgs))
  have hpos : ∀ i k im, keep[i]? = some (k, im) → ([] : List Image).length + i ≤ k := by
    intro i k im h
    have := takeEvery_enum_pos imgs s hs i k im (hkeep ▸ h)
    simpa using this
  have hrf := rename_fold keep [] hpair hpos
  simp only [List.length_nil, List.nil_append] at hrf
  have henum0 : enumer 0 ([] : List Image) = [] := rfl
  rw [henum0, List.nil_append] at hrf
  rw [hrf]
  have hsnd : keep.map Prod.snd = takeEvery s imgs := by
    rw [hkeep, ← takeEvery_map, enumer_map_snd]
  rw [hsnd]

/-! Evaluation lemmas for the extractor. -/

theorem extract_frames_some (cap : Capture) (hopen : cap.opened = true) (dur : ℚ) :
    extract_frames cap (some dur) = Except.ok
      ⟨(enumer 0 (cap.stream.take
          (min (pyInt (dur * cap.fps)) (cap.total_frames : Int)).toNat)).length,
       cap.fps, (cap.width, cap.height),
       enumer 0 (cap.stream.take
          (min (pyInt (dur * cap.fps)) (cap.total_frames : Int)).toNat)⟩ := by
  unfold extract_frames
  rw [if_neg (by simp [hopen])]

theorem extract_frames_none (cap : Capture) (hopen : cap.opened = true)
    (hfps : ¬ cap.fps = 0) :
    extract_frames cap none = Except.ok
      ⟨(enumer 0 (cap.stream.take cap.total_frames)).length, cap.fps,
       (cap.width, cap.height), enumer 0 (cap.stream.take cap.total_frames)⟩ := by
  unfold extract_frames
  rw [if_neg (by simp [hopen])]
  rw [if_neg hfps]

/-! Claim theorems. -/

/-- C2: for every non-empty extracted frame set of size N and skip factor
`skip ≥ 1` (in the pipeline, `skip = floor(native_fps / target_fps)`, the
last conjunct), resampling yields exactly the frames at original indices
`0, skip, 2*skip, ...`, renamed to the contiguous zero-based range
`[0, ceil(N / skip))` in their original sorted order with unmodified
images; `(N + skip - 1) / skip` is `ceil(N / skip)` in natural division. -/
theorem C2_resampler_retention (imgs : List Image) (s : Nat)
    (hs : 1 ≤ s) (hne : imgs ≠ []) :
    subsample_frames (enumer 0 imgs) s = enumer 0 (takeEvery s imgs)
    ∧ (takeEvery s imgs).length = (imgs.length + s - 1) / s
    ∧ (∀ i : Nat, (takeEvery s imgs)[i]? = imgs[i * s]?)
    ∧ (∀ o t : ℚ, 0 < t → t < o → computeFrameSkip o t = ⌊o / t⌋) := by
  refine ⟨subsample_enum imgs s hs, length_takeEvery s hs imgs,
    fun i => takeEvery_getElem? s hs imgs i, ?_⟩
  intro o t ht hto
  have hq : 0 ≤ o / t := le_of_lt (div_pos (lt_trans ht hto) ht)
  simp [computeFrameSkip, if_pos hto, pyInt_of_nonneg _ hq]

/-- C2 witness: five frames, skip 2 keeps positions 0, 2, 4. -/
theorem C2_resampler_retention_witness :
    1 ≤ 2 ∧ ([imgA, imgB, imgC, imgD, imgA] ≠ ([] : List Image))
    ∧ subsample_frames (enumer 0 [imgA, imgB, imgC, imgD, imgA]) 2
        = enumer 0 (takeEvery 2 [imgA, imgB, imgC, imgD, imgA])
    ∧ (takeEvery 2 [imgA, imgB, imgC, imgD, imgA]).length = 3 :=
  ⟨by decide, by decide,
   (C2_resampler_retention [imgA, imgB, imgC, imgD, imgA] 2 (by decide) (by decide)).1,
   by rw [length_takeEvery 2 (by decide)]; decide⟩

/-- C10: for every non-empty frame set and skip factor `skip ≥ 1`, the
resampler retains the frame at original index 0: the result is non-empty
and its entry renumbered to index 0 is the original first frame. -/
theorem C10_first_frame_retained (imgs : List Image) (s : Nat)
    (hs : 1 ≤ s) (hne : imgs ≠ []) :
    subsample_frames (enumer 0 imgs) s ≠ []
    ∧ (subsample_frames (enumer 0 imgs) s)[0]?
        = imgs[0]?.map (fun im => (0, im)) := by
  obtain ⟨x, xs, rfl⟩ := List.exists_cons_of_ne_nil hne
  rw [subsample_enum _ s hs, takeEvery_cons]
  constructor
  · simp [enumer]
  · simp [enumer]

/-- C10 witness: skip 3 on a two-frame set retains the first frame. -/
theorem C10_first_frame_retained_witness :
    1 ≤ 3 ∧ ([imgA, imgB] ≠ ([] : List Image))
    ∧ subsample_frames (enumer 0 [imgA, imgB]) 3 ≠ []
    ∧ (subsample_frames (enumer 0 [imgA, imgB]) 3)[0]?
        = [imgA, imgB][0]?.map (fun im => (0, im)) :=
  ⟨by decide, by decide,
   (C10_first_frame_retained [imgA, imgB] 3 (by decide) (by decide)).1,
   (C10_first_frame_retained [imgA, imgB] 3 (by decide) (by decide)).2⟩

/-- C7: for every frame set, resampling with `target_fps ≥ native_fps` is
the identity: the skip factor is 1 and the retained set equals the input
set, same count, same order, no renaming. -/
theorem C7_resample_identity (d : Dir) (original_fps target_fps : ℚ)
    (h : original_fps ≤ target_fps) :
    computeFrameSkip original_fps target_fps = 1
    ∧ resampleStage d original_fps target_fps = d := by
  have hnlt : ¬ target_fps < original_fps := not_lt.mpr h
  constructor
  · simp [computeFrameSkip, hnlt]
  · simp [resampleStage, computeFrameSkip, hnlt]

/-- C7 witness: equal rates on a two-frame set. -/
theorem C7_resample_identity_witness :
    (30 : ℚ) ≤ 30
    ∧ computeFrameSkip 30 30 = 1
    ∧ resampleStage [(0, imgA), (1, imgB)] 30 30 = [(0, imgA), (1, imgB)] :=
  ⟨by decide, (C7_resample_identity [(0, imgA), (1, imgB)] 30 30 (by decide)).1,
   (C7_resample_identity [(0, imgA), (1, imgB)] 30 30 (by decide)).2⟩

/-- C8: for every non-empty transformed frame set, the assembler writes
exactly one output frame per input frame in sorted index order, and every
frame whose geometry differs from the canonical geometry (the supplied
one, else the first frame's) is resized to the canonical geometry. -/
theorem C8_assembler_output (d : Dir) (size : Option (Nat × Nat)) (h : d ≠ []) :
    stitch_frames d size
      = Except.ok (d.map (fun f => fitGeometry (canonGeom d size) f.2))
    ∧ (d.map (fun f => fitGeometry (canonGeom d size) f.2)).length = d.length
    ∧ (∀ img ∈ d.map (fun f => fitGeometry (canonGeom d size) f.2),
        (img.width, img.height) = canonGeom d size) := by
  refine ⟨?_, by simp, ?_⟩
  · have hie : d.isEmpty = false := by
      cases d with
      | nil => exact absurd rfl h
      | cons a l => rfl
    unfold stitch_frames
    simp [hie]
  · intro img hmem
    rcases List.mem_map.mp hmem with ⟨f, _, rfl⟩
    unfold fitGeometry cv2_resize
    split
    · assumption
    · rfl

/-- C8 witness: a set whose second frame has a differing geometry. -/
theorem C8_assembler_output_witness :
    ([(0, imgA), (1, imgC)] : Dir) ≠ []
    ∧ stitch_frames [(0, imgA), (1, imgC)] none
        = Except.ok ([(0, imgA), (1, imgC)].map
            (fun f => fitGeometry (canonGeom [(0, imgA), (1, imgC)] none) f.2)) :=
  ⟨by decide, (C8_assembler_output [(0, imgA), (1, imgC)] none (by decide)).1⟩

/-- C1: for every frame set submitted to the dispatcher, every input index
has exactly one output frame written under the same index: the AI-mode
dispatcher maps each input frame to exactly one persisted output, and a
primary-transformation exception or an image-free response makes it
persist the fallback applied to the original input, so no frame is
omitted even when the primary transformation fails on every frame. -/
theorem C1_dispatcher_no_drop (aiT : Image → Except String AIResponse)
    (fb : Image → Image) (d : Dir) (hne : d ≠ [])
    (hsort : List.Pairwise keyLt d) :
    process_frames Mode.ai aiT fb d []
      = Except.ok (d.map (fun f => (f.1, process_frame_ai aiT fb f.2)))
    ∧ (d.map (fun f => (f.1, process_frame_ai aiT fb f.2))).map Prod.fst
      = d.map Prod.fst
    ∧ (∀ (img : Image) (e : String), aiT img = Except.error e →
        process_frame_ai aiT fb img = fb img)
    ∧ (∀ (img : Image) (resp : AIResponse), aiT img = Except.ok resp →
        firstInlineImage resp.parts = none →
        process_frame_ai aiT fb img = fb img) := by
  refine ⟨?_, ?_, ?_, ?_⟩
  · have hie : d.isEmpty = false := by
      cases d with
      | nil => exact absurd rfl hne
      | cons a l => rfl
    unfold process_frames
    rw [hie]
    have hf := foldl_storeFile (fun f => processOne Mode.ai aiT fb f.2) d [] hsort
      (by intro a ha; simp at ha)
    simpa [processOne] using hf
  · simp [List.map_map, Function.comp]
  · intro img e he
    simp [process_frame_ai, he]
  · intro img resp hresp hnone
    simp [process_frame_ai, hresp, hnone]

/-- C1 witness: a two-frame set under an always-failing AI capability. -/
theorem C1_dispatcher_no_drop_witness :
    ([(0, imgA), (1, imgB)] : Dir) ≠ []
    ∧ List.Pairwise keyLt [(0, imgA), (1, imgB)]
    ∧ process_frames Mode.ai aiAlwaysFails fbScribble [(0, imgA), (1, imgB)] []
      = Except.ok ([(0, imgA), (1, imgB)].map
          (fun f => (f.1, process_frame_ai aiAlwaysFails fbScribble f.2))) :=
  ⟨by decide, by decide,
   (C1_dispatcher_no_drop aiAlwaysFails fbScribble [(0, imgA), (1, imgB)]
     (by decide) (by decide)).1⟩

/-- C3: for a readable source (open succeeded, positive reported rate),
the extractor returns and writes `min(total_native_frames,
floor(duration_cutoff * native_fps))` frames when a cutoff is given and
`total_native_frames` otherwise, in both cases capped by the decodable
stream length when the stream ends early (without error); the written
frames carry contiguous zero-based indices. -/
theorem C3_extractor_counts (cap : Capture) (hopen : cap.opened = true)
    (hfps : 0 < cap.fps) (dur : ℚ) (hd : 0 ≤ dur) :
    extract_frames cap (some dur) = Except.ok
      ⟨min (min (Int.toNat ⌊dur * cap.fps⌋) cap.total_frames) cap.stream.length,
       cap.fps, (cap.width, cap.height),
       enumer 0 (cap.stream.take (min (Int.toNat ⌊dur * cap.fps⌋) cap.total_frames))⟩
    ∧ extract_frames cap none = Except.ok
      ⟨min cap.total_frames cap.stream.length, cap.fps, (cap.width, cap.height),
       enumer 0 (cap.stream.take cap.total_frames)⟩
    ∧ (∀ k : Nat, (enumer 0 (cap.stream.take k)).map Prod.fst
        = List.range (min k cap.stream.length)) := by
  have hkeys : ∀ k : Nat, (enumer 0 (cap.stream.take k)).map Prod.fst
      = List.range (min k cap.stream.length) := by
    intro k
    rw [enumer_map_fst, List.length_take, List.range_eq_range']
  refine ⟨?_, ?_, hkeys⟩
  · have h := extract_frames_some cap hopen dur
    have harith : (min (pyInt (dur * cap.fps)) (cap.total_frames : Int)).toNat
        = min (Int.toNat ⌊dur * cap.fps⌋) cap.total_frames := by
      rw [pyInt_of_nonneg _ (mul_nonneg hd (le_of_lt hfps))]
      omega
    rw [harith] at h
    rw [h]
    have hlen : (enumer 0 (cap.stream.take
        (min (Int.toNat ⌊dur * cap.fps⌋) cap.total_frames))).length
        = min (min (Int.toNat ⌊dur * cap.fps⌋) cap.total_frames) cap.stream.length := by
      rw [enumer_length, List.length_take]
    rw [hlen]
  · have h := extract_frames_none cap hopen (by
      intro h0
      rw [h0] at hfps
      exact lt_irrefl 0 hfps)
    rw [h]
    have hlen : (enumer 0 (cap.stream.take cap.total_frames)).length
        = min cap.total_frames cap.stream.length := by
      rw [enumer_length, List.length_take]
    rw [hlen]

/-- C3 witness: 30 fps capture, 0.1 s cutoff keeps 3 of 5 frames. -/
theorem C3_extractor_counts_witness :
    capFive.opened = true ∧ (0 : ℚ) < capFive.fps ∧ (0 : ℚ) ≤ 1/10
    ∧ extract_frames capFive (some (1/10))
      = Except.ok ⟨3, 30, (4, 3), enumer 0 [imgA, imgB, imgC]⟩ := by
  refine ⟨rfl, by decide, by norm_num, ?_⟩
  have h := (C3_extractor_counts capFive rfl (by decide) (1/10) (by norm_num)).1
  rw [h]
  have harith : min (Int.toNat ⌊(1/10 : ℚ) * capFive.fps⌋) capFive.total_frames = 3 := by
    norm_num [capFive]
    decide
  rw [harith]
  rfl

/-- C4 (code bug in src/app.py): the library components raise a
`ValueError` on an empty frame set — `ScribbleGenerator.process_frames`
and `VideoProcessor.stitch_frames` — but the Streamlit coordinator's
inline dispatch and stitch loops have no empty-set check: with zero
extracted frames, `process_video` reports success with a zero-frame
output and performs cleanup. -/
theorem C4_empty_frame_set :
    process_frames Mode.ai aiAlwaysFails fbScribble [] []
      = Except.error "No frames found"
    ∧ stitch_frames ([] : Dir) none = Except.error "No frames found"
    ∧ app_process_video capEmpty 5 30 30 fbScribble [] = ⟨some [], true, [], []⟩ := by
  refine ⟨rfl, rfl, ?_⟩
  have hs : capEmpty.stream = [] := rfl
  have h := extract_frames_some capEmpty rfl 5
  rw [hs] at h
  simp only [List.take_nil, enumer, List.length_nil] at h
  unfold app_process_video
  rw [h]
  rfl

/-- C5 counterexample: in AI mode with the credential absent, the CLI run
does fail with the descriptive credential error, but the extracted-frame
workspace is already populated when it does: frame extraction precedes
the credential check, so the error is not raised before frame work. -/
theorem C5_credential_after_extraction_counterexample :
    main_pipeline capOne none Mode.ai none aiAlwaysFails fbScribble []
      = ⟨Except.error "GOOGLE_API_KEY not found. Please set it in your .env file.",
         [(0, imgA)], []⟩
    ∧ ([(0, imgA)] : Dir) ≠ [] := by
  exact ⟨by decide, by decide⟩

/-- C5 amended: with AI mode and no credential, whenever extraction
succeeds the run fails with the credential error before any frame is
transformed (the transformed workspace is untouched), but only after the
extraction stage has run and populated the extracted workspace. -/
theorem C5_amended_credential_check (cap : Capture) (md : Option ℚ)
    (aiT : Image → Except String AIResponse) (fb : Image → Image)
    (scrib0 : Dir) (r : ExtractResult)
    (hex : extract_frames cap md = Except.ok r) :
    main_pipeline cap md Mode.ai none aiT fb scrib0
      = ⟨Except.error "GOOGLE_API_KEY not found. Please set it in your .env file.",
         r.frames, scrib0⟩ := by
  unfold main_pipeline
  rw [hex]
  rfl

/-- C5 witness: one-frame capture, AI mode, absent credential. -/
theorem C5_amended_credential_check_witness :
    extract_frames capOne none = Except.ok ⟨1, 30, (4, 3), [(0, imgA)]⟩
    ∧ main_pipeline capOne none Mode.ai none aiNoImage fbScribble [(5, imgB)]
      = ⟨Except.error "GOOGLE_API_KEY not found. Please set it in your .env file.",
         [(0, imgA)], [(5, imgB)]⟩ :=
  ⟨by decide,
   C5_amended_credential_check capOne none aiNoImage fbScribble [(5, imgB)]
     ⟨1, 30, (4, 3), [(0, imgA)]⟩ (by decide)⟩

/-- C6 counterexample: a capture that opens but reports a zero frame
rate, together with a duration cutoff, makes the extractor return a
successful zero-frame extraction instead of failing. -/
theorem C6_zero_fps_counterexample :
    capZeroFps.fps = 0
    ∧ extract_frames capZeroFps (some 2) = Except.ok ⟨0, 0, (4, 3), []⟩
    ∧ (extract_frames capZeroFps (some 2)).isOk = true := by
  have h := extract_frames_some capZeroFps rfl 2
  have harith : (min (pyInt (2 * capZeroFps.fps))
      ((capZeroFps.total_frames : Nat) : Int)).toNat = 0 := by
    norm_num [pyInt, capZeroFps]
  rw [harith] at h
  simp only [List.take_zero, enumer, List.length_nil] at h
  refine ⟨rfl, ?_, ?_⟩
  · rw [h]
    rfl
  · rw [h]
    rfl

/-- C6 amended: the extractor fails before writing any frame when the
source cannot be opened; a zero reported frame rate makes it fail only
when no duration cutoff is given (the duration report divides by the
rate), while with a cutoff it succeeds with zero extracted frames. -/
theorem C6_amended_unreadable_source (cap : Capture) :
    (∀ md : Option ℚ, cap.opened = false →
      extract_frames cap md = Except.error "Could not open video file")
    ∧ (cap.opened = true → cap.fps = 0 →
      extract_frames cap none = Except.error "ZeroDivisionError: division by zero")
    ∧ (∀ dur : ℚ, cap.opened = true → cap.fps = 0 →
      extract_frames cap (some dur)
        = Except.ok ⟨0, cap.fps, (cap.width, cap.height), []⟩) := by
  refine ⟨?_, ?_, ?_⟩
  · intro md h
    unfold extract_frames
    rw [if_pos h]
  · intro h hf
    unfold extract_frames
    rw [if_neg (by simp [h]), if_pos hf]
  · intro dur h hf
    have h2 := extract_frames_some cap h dur
    rw [hf] at h2
    have harith : (min (pyInt (dur * 0)) ((cap.total_frames : Nat) : Int)).toNat = 0 := by
      norm_num [pyInt]
    rw [harith] at h2
    simp only [List.take_zero, enumer, List.length_nil] at h2
    rw [h2, hf]

/-- C6 witness: the unopenable capture and the zero-rate capture. -/
theorem C6_amended_unreadable_source_witness :
    capClosed.opened = false
    ∧ extract_frames capClosed none = Except.error "Could not open video file"
    ∧ capZeroFps.opened = true ∧ capZeroFps.fps = 0
    ∧ extract_frames capZeroFps none
      = Except.error "ZeroDivisionError: division by zero"
    ∧ extract_frames capZeroFps (some 3)
      = Except.ok ⟨0, capZeroFps.fps, (capZeroFps.width, capZeroFps.height), []⟩ :=
  ⟨rfl, (C6_amended_unreadable_source capClosed).1 none rfl, rfl, rfl,
   (C6_amended_unreadable_source capZeroFps).2.1 rfl rfl,
   (C6_amended_unreadable_source capZeroFps).2.2 3 rfl rfl⟩

/-- C9 counterexample: a CLI run that completes successfully (reaches the
Done state) leaves both the extracted-frame and the transformed-frame
workspaces populated: `main` performs no cleanup. -/
theorem C9_cli_no_cleanup_counterexample :
    (main_pipeline capOne none Mode.experimental none aiAlwaysFails fbScribble []).result
      = Except.ok [fbScribble imgA]
    ∧ (main_pipeline capOne none Mode.experimental none aiAlwaysFails fbScribble
        []).originalDir = [(0, imgA)]
    ∧ (main_pipeline capOne none Mode.experimental none aiAlwaysFails fbScribble
        []).scribbledDir = [(0, fbScribble imgA)]
    ∧ ([(0, imgA)] : Dir) ≠ [] := by
  exact ⟨by decide, by decide, by decide, by decide⟩

/-- C9 amended: the web-app coordinator deletes both workspaces exactly
when a run succeeds and attempts no cleanup when extraction fails; the
CLI coordinator never deletes the extracted workspace, even on a run that
completes successfully. -/
theorem C9_amended_cleanup (cap : Capture) (dur : ℚ) (t o : ℚ)
    (tr : Image → Image) (scrib0 : Dir) :
    (∀ r : ExtractResult, extract_frames cap (some dur) = Except.ok r →
      ∃ out, app_process_video cap dur t o tr scrib0 = ⟨some out, true, [], []⟩)
    ∧ (∀ e : String, extract_frames cap (some dur) = Except.error e →
      app_process_video cap dur t o tr scrib0 = ⟨none, false, [], scrib0⟩)
    ∧ (∀ (md : Option ℚ) (mode : Mode) (key : Option String)
        (aiT : Image → Except String AIResponse) (fb : Image → Image)
        (r : ExtractResult), extract_frames cap md = Except.ok r →
        (main_pipeline cap md mode key aiT fb scrib0).originalDir = r.frames) := by
  refine ⟨?_, ?_, ?_⟩
  · intro r hr
    refine ⟨((if 1 < computeFrameSkip o t
        then subsample_frames r.frames (computeFrameSkip o t).toNat
        else r.frames).foldl (fun st f => storeFile f.1 (tr f.2) st) scrib0).map
          (fun f => fitGeometry r.frame_size f.2), ?_⟩
    simp only [app_process_video, hr]
  · intro e he
    simp only [app_process_video, he]
  · intro md mode key aiT fb r hr
    cases hsg : scribbleGeneratorInit mode key with
    | error e => simp only [main_pipeline, hr, hsg]
    | ok u =>
      cases hpf : process_frames mode aiT fb r.frames scrib0 with
      | error e => simp only [main_pipeline, hr, hsg, hpf]
      | ok scrib1 =>
        cases hst : stitch_frames scrib1 none with
        | error e => simp only [main_pipeline, hr, hsg, hpf, hst]
        | ok out => simp only [main_pipeline, hr, hsg, hpf, hst]

/-- C9 witness: a one-frame capture; the web run cleans up, the CLI run
keeps the extracted frames. -/
theorem C9_amended_cleanup_witness :
    extract_frames capOne (some 2) = Except.ok ⟨1, 30, (4, 3), [(0, imgA)]⟩
    ∧ (∃ out, app_process_video capOne 2 30 30 fbScribble []
        = ⟨some out, true, [], []⟩)
    ∧ (main_pipeline capOne (some 2) Mode.experimental none aiNoImage fbScribble
        []).originalDir = [(0, imgA)] := by
  have hex : extract_frames capOne (some 2) = Except.ok ⟨1, 30, (4, 3), [(0, imgA)]⟩ := by
    have h := extract_frames_some capOne rfl 2
    have harith : (min (pyInt (2 * capOne.fps)) (capOne.total_frames : Int)).toNat = 1 := by
      norm_num [pyInt, capOne]
    rw [harith] at h
    exact h
  refine ⟨hex, (C9_amended_cleanup capOne 2 30 30 fbScribble []).1 _ hex, ?_⟩
  exact (C9_amended_cleanup capOne 2 30 30 fbScribble []).2.2 (some 2) Mode.experimental
    none aiNoImage fbScribble ⟨1, 30, (4, 3), [(0, imgA)]⟩ hex
